import Mathlib

/-!
Verification of the word-hunt puzzle engine: a shallow embedding of
src/frontend/src/lib/wordhunt/generator.ts and
src/frontend/src/lib/wordhunt/time.ts, together with theorems settling the
specification claims about the puzzle generator and the selection engine.

Modelling conventions:
- A JavaScript string is modelled as a `List Char` (`JsString`); the empty
  string is `[]` and a single-letter cell value is `[c]`.
- The grid `string[][]` is `List (List JsString)`; a cell holds `[]` (the
  TypeScript empty string used for unassigned cells) or a one-letter string.
- The JavaScript `undefined` value produced by reading an array outside its
  bounds is modelled with `Option`: `jsGet` returns `none` exactly where the
  JavaScript index expression evaluates to `undefined`.
- `Math.random()`-driven draws are modelled by an injected stream
  `rng : Nat → Nat`; the k-th draw in range `n` is `rng k % n`, so quantifying
  over all `rng` quantifies over all sequences of in-range draws.
-/

/-- A JavaScript string, as a list of its characters. -/
abbrev JsString := List Char

/-- The grid type `string[][]` from generator.ts. -/
abbrev Grid := List (List JsString)

/-- JavaScript array indexing `a[i]`: `undefined` (here `none`) for an index
outside `[0, a.length)`. -/
def jsGet (l : List α) (i : Int) : Option α :=
  if i < 0 then none else l.get? i.toNat

/-- The value of `grid[r][c]` when `grid[r]` is a real row; `none` models the
JavaScript `undefined` obtained when `c` is outside the row. (When `grid[r]`
itself is `undefined` JavaScript would throw; the generator and all theorems
below only evaluate this with `r` inside the grid.) -/
def jsCell (grid : Grid) (r c : Int) : Option JsString :=
  (jsGet grid r).bind fun row => jsGet row c

/-- The cell contents `grid[r][c]` read as a string, with out-of-bounds reads
giving the empty string; the generator only reads cells after its own bounds
check, where this agrees with the TypeScript source. -/
def cellAt (grid : Grid) (r c : Int) : JsString :=
  (jsCell grid r c).getD []

/-- The assignment `grid[r][c] = v` from generator.ts. All writes performed by
the source are bounds-checked first (by `canPlaceWord` or the fill loop), where
`List.set` is exactly the JavaScript in-place update. -/
def setCell (grid : Grid) (r c : Int) (v : JsString) : Grid :=
  if 0 ≤ r ∧ 0 ≤ c then
    grid.set r.toNat ((grid.getD r.toNat []).set c.toNat v)
  else grid

/-- The `GridCell` interface from generator.ts. The `letter` field is an
`Option` because `getSelectionCells` stores `grid[r][c]`, which is the
JavaScript `undefined` when `c` is out of bounds; the generator always stores
`some` of a one-letter string. -/
structure GridCell where
  letter : Option JsString
  row : Int
  col : Int
deriving DecidableEq, Repr

instance : Inhabited GridCell := ⟨⟨none, 0, 0⟩⟩

/-- The `PlacedWord` interface from generator.ts. -/
structure PlacedWord where
  word : JsString
  cells : List GridCell
deriving DecidableEq, Repr

instance : Inhabited PlacedWord := ⟨⟨[], []⟩⟩

/-- The `PuzzleData` interface from generator.ts. -/
structure PuzzleData where
  grid : Grid
  placedWords : List PlacedWord
  wordList : List JsString
deriving DecidableEq, Repr

/-- The eight placement direction vectors from generator.ts, in source order. -/
def DIRECTIONS : List (Int × Int) :=
  [(0, 1), (0, -1), (1, 0), (-1, 0), (1, 1), (1, -1), (-1, 1), (-1, -1)]

/-- The line test `isInLine` from time.ts: same cell, or horizontal, vertical,
or exact diagonal. -/
def isInLine (startRow startCol endRow endCol : Int) : Bool :=
  let dr := endRow - startRow
  let dc := endCol - startCol
  if dr = 0 ∧ dc = 0 then true
  else decide (dr = 0) || decide (dc = 0) || decide (dr.natAbs = dc.natAbs)

/-- The function `getSelectionCells` from time.ts. Letters are read with
`jsCell`, so a cell whose column is outside its row carries the `undefined`
letter (`none`), exactly as in the JavaScript source. -/
def getSelectionCells (grid : Grid) (startRow startCol endRow endCol : Int) :
    List GridCell :=
  if ¬ isInLine startRow startCol endRow endCol then []
  else
    let dr := endRow - startRow
    let dc := endCol - startCol
    let steps := max dr.natAbs dc.natAbs
    if steps = 0 then
      [⟨jsCell grid startRow startCol, startRow, startCol⟩]
    else
      let stepR : Int := if dr = 0 then 0 else dr / (dr.natAbs : Int)
      let stepC : Int := if dc = 0 then 0 else dc / (dc.natAbs : Int)
      (List.range (steps + 1)).map fun (i : Nat) =>
        ⟨jsCell grid (startRow + (i : Int) * stepR) (startCol + (i : Int) * stepC),
         startRow + (i : Int) * stepR, startCol + (i : Int) * stepC⟩

/-- The function `cellsToWord` from time.ts: `cells.map(c => c.letter).join('')`.
`Array.prototype.join` renders the `undefined` letter as the empty string, hence
the `Option.getD []`. -/
def cellsToWord (cells : List GridCell) : JsString :=
  (cells.map fun c => c.letter.getD []).flatten

/-- The function `validateSelection` from time.ts: forward word first, then its
character reversal, else no match. -/
def validateSelection (cells : List GridCell) (remainingWords : List JsString) :
    Option JsString :=
  let word := cellsToWord cells
  let reversedWord := word.reverse
  if remainingWords.contains word then some word
  else if remainingWords.contains reversedWord then some reversedWord
  else none

/-- The function `canPlaceWord` from generator.ts, written as the conjunction
over all letter indices of the source loop's per-index checks: the cell is in
bounds (`rows = grid.length`, `cols = grid[0].length`), and is either still
empty or already holds the required letter. -/
def canPlaceWord (grid : Grid) (word : JsString) (row col dr dc : Int) : Bool :=
  let rows : Int := grid.length
  let cols : Int := (grid.headD []).length
  (List.range word.length).all fun i =>
    let r := row + (i : Int) * dr
    let c := col + (i : Int) * dc
    decide (0 ≤ r) && decide (r < rows) && decide (0 ≤ c) && decide (c < cols) &&
      (cellAt grid r c == ([] : JsString) || cellAt grid r c == [word.getD i 'A'])

/-- The grid-mutation part of the `placeWord` loop from generator.ts: write
`word[i]` at cell `(row + i*dr, col + i*dc)` for each index `i` of the list, in
order. -/
def writeWordCells (word : JsString) (row col dr dc : Int) :
    Grid → List Nat → Grid
  | grid, [] => grid
  | grid, i :: rest =>
      writeWordCells word row col dr dc
        (setCell grid (row + (i : Int) * dr) (col + (i : Int) * dc)
          [word.getD i 'A'])
        rest

/-- The function `placeWord` from generator.ts: mutate the grid along the word
and return the recorded cells. The source's single loop is split into the grid
writes (`writeWordCells`) and the pure `cells` list it pushes. -/
def placeWord (grid : Grid) (word : JsString) (row col dr dc : Int) :
    Grid × List GridCell :=
  (writeWordCells word row col dr dc grid (List.range word.length),
   (List.range word.length).map fun i =>
     ⟨some [word.getD i 'A'], row + (i : Int) * dr, col + (i : Int) * dc⟩)

/-- The inner attempt loop of `generatePuzzle`: up to the given number of
attempts, draw a row, a column and a direction (three `rng` draws, advancing
the draw counter `k`), and commit the first placement `canPlaceWord` accepts.
Returns the grid, the placed cells if any, and the new draw counter. -/
def tryPlaceWord (rng : Nat → Nat) (gridSize : Nat) (word : JsString)
    (grid : Grid) (k : Nat) : Nat → Grid × Option (List GridCell) × Nat
  | 0 => (grid, none, k)
  | n + 1 =>
      let row : Int := (rng k % gridSize : Nat)
      let col : Int := (rng (k + 1) % gridSize : Nat)
      let dir := DIRECTIONS.getD (rng (k + 2) % DIRECTIONS.length) (0, 1)
      if canPlaceWord grid word row col dir.1 dir.2 then
        let placed := placeWord grid word row col dir.1 dir.2
        (placed.1, some placed.2, k + 3)
      else tryPlaceWord rng gridSize word grid (k + 3) n

/-- The outer word loop of `generatePuzzle`: for each word in order, run the
100-attempt placement loop, append a `PlacedWord` on success, and stop as soon
as 20 words have been placed. -/
def placeWordsLoop (rng : Nat → Nat) (gridSize : Nat) :
    List JsString → Grid → List PlacedWord → Nat → Grid × List PlacedWord × Nat
  | [], grid, placed, k => (grid, placed, k)
  | word :: rest, grid, placed, k =>
      let out := tryPlaceWord rng gridSize word grid k 100
      let placed2 : List PlacedWord :=
        match out.2.1 with
        | some cells => placed ++ [⟨word, cells⟩]
        | none => placed
      if 20 ≤ placed2.length then (out.1, placed2, out.2.2)
      else placeWordsLoop rng gridSize rest out.1 placed2 out.2.2

/-- The filler alphabet from generator.ts. -/
def alphabet : JsString :=
  ['A', 'B', 'C', 'D', 'E', 'F', 'G', 'H', 'I', 'J', 'K', 'L', 'M',
   'N', 'O', 'P', 'Q', 'R', 'S', 'T', 'U', 'V', 'W', 'X', 'Y', 'Z']

/-- The fill loop of `generatePuzzle` over an explicit list of positions (the
nested `for` loops visit them in row-major order): every still-empty cell gets
a random alphabet letter, consuming one `rng` draw per filled cell. -/
def fillCells (rng : Nat → Nat) :
    List (Nat × Nat) → Grid × Nat → Grid × Nat
  | [], gk => gk
  | rc :: rest, (grid, k) =>
      if cellAt grid rc.1 rc.2 = [] then
        fillCells rng rest
          (setCell grid rc.1 rc.2 [alphabet.getD (rng k % alphabet.length) 'A'],
           k + 1)
      else fillCells rng rest (grid, k)

/-- The row-major list of all grid positions visited by the fill loop. -/
def rowMajor (gridSize : Nat) : List (Nat × Nat) :=
  ((List.range gridSize).map fun r =>
    (List.range gridSize).map fun c => (r, c)).flatten

/-- The body of `generatePuzzle` from generator.ts after the word list has
been sorted: allocate the empty grid, run the placement loop, fill the
remaining cells. -/
def generatePuzzleSorted (sortedWords : List JsString) (gridSize : Nat)
    (rng : Nat → Nat) : PuzzleData :=
  let grid0 : Grid :=
    List.replicate gridSize (List.replicate gridSize ([] : JsString))
  let out := placeWordsLoop rng gridSize sortedWords grid0 [] 0
  let filled := fillCells rng (rowMajor gridSize) (out.1, out.2.2)
  { grid := filled.1
    placedWords := out.2.1
    wordList := out.2.1.map fun pw => pw.word }

/-- The function `generatePuzzle` from generator.ts. The module-level
`WORD_LIST` and its random shuffle `[...WORD_LIST].sort(() => Math.random() - 0.5)`
are modelled by taking the already-shuffled list as the `shuffledWords`
parameter (the claims quantify over it); the stable descending-length sort is
`List.mergeSort`, and the random draws come from the injected stream `rng`. -/
def generatePuzzle (shuffledWords : List JsString) (gridSize : Nat)
    (rng : Nat → Nat) : PuzzleData :=
  generatePuzzleSorted
    (shuffledWords.mergeSort fun a b => decide (b.length ≤ a.length))
    gridSize rng

/-- Well-formedness of a square grid: `gridSize` rows, each of length
`gridSize`. -/
def gridShape (gridSize : Nat) (grid : Grid) : Prop :=
  grid.length = gridSize ∧ ∀ row ∈ grid, row.length = gridSize

instance (gridSize : Nat) (grid : Grid) : Decidable (gridShape gridSize grid) := by
  unfold gridShape
  infer_instance

theorem sign_trichotomy (d : Int) :
    (d = 0 ∧ d.sign = 0) ∨ (0 < d ∧ d.sign = 1) ∨ (d < 0 ∧ d.sign = -1) := by
  rcases d with n | n
  · rcases n with _ | n
    · exact Or.inl ⟨rfl, rfl⟩
    · exact Or.inr (Or.inl ⟨Int.ofNat_pos.mpr (Nat.succ_pos n), rfl⟩)
  · exact Or.inr (Or.inr ⟨Int.negSucc_lt_zero n, rfl⟩)

theorem step_eq_sign (d : Int) :
    (if d = 0 then (0 : Int) else d / (d.natAbs : Int)) = d.sign := by
  rcases sign_trichotomy d with ⟨h0, hs⟩ | ⟨h0, hs⟩ | ⟨h0, hs⟩
  · simp [h0]
  · have hd : d ≠ 0 := by omega
    have habs : (d.natAbs : Int) = d := by omega
    rw [if_neg hd, habs, Int.ediv_self hd, hs]
  · have hd : d ≠ 0 := by omega
    have habs : (d.natAbs : Int) = -d := by omega
    rw [if_neg hd, habs, hs]
    have hdvd : d ∣ d := dvd_refl d
    calc d / (-d) = -(d / d) := Int.ediv_neg d d
    _ = -1 := by rw [Int.ediv_self hd]

theorem jsGet_eq_some {l : List α} {i : Int} (h0 : 0 ≤ i) :
    jsGet l i = l[i.toNat]? := by
  unfold jsGet
  rw [if_neg (by omega)]
  exact List.get?_eq_getElem? l i.toNat

theorem jsGet_of_neg {l : List α} {i : Int} (h : i < 0) : jsGet l i = none := by
  unfold jsGet
  rw [if_pos h]

theorem jsCell_eq_some_cellAt {gs : Nat} {grid : Grid} (hsh : gridShape gs grid)
    {r c : Int} (hr0 : 0 ≤ r) (hr : r < gs) (hc0 : 0 ≤ c) (hc : c < gs) :
    jsCell grid r c = some (cellAt grid r c) := by
  obtain ⟨hlen, hrows⟩ := hsh
  have hrn : r.toNat < grid.length := by omega
  have hmem : grid[r.toNat] ∈ grid := List.getElem_mem hrn
  have hcn : c.toNat < (grid[r.toNat]).length := by
    rw [hrows _ hmem]; omega
  have hval : jsCell grid r c = some (grid[r.toNat])[c.toNat] := by
    unfold jsCell
    rw [jsGet_eq_some hr0, List.getElem?_eq_getElem hrn]
    simp [jsGet_eq_some hc0, List.getElem?_eq_getElem hcn]
  unfold cellAt
  rw [hval]
  simp

theorem isInLine_iff (sr sc er ec : Int) :
    isInLine sr sc er ec = true ↔
      (sr = er ∧ sc = ec) ∨ er - sr = 0 ∨ ec - sc = 0 ∨
        (er - sr).natAbs = (ec - sc).natAbs := by
  simp only [isInLine]
  split
  · simp only [true_iff]
    omega
  · simp only [Bool.or_eq_true, decide_eq_true_eq]
    omega

theorem isInLine_self (sr sc : Int) : isInLine sr sc sr sc = true := by
  simp [isInLine]

/-- C4: `isInLine` returns true iff start equals end, or the row delta is
zero, or the column delta is zero, or the absolute row delta equals the
absolute column delta; in particular it is true on every degenerate
single-cell pair. -/
theorem isInLine_spec (sr sc er ec : Int) :
    (isInLine sr sc er ec = true ↔
      (sr = er ∧ sc = ec) ∨ er - sr = 0 ∨ ec - sc = 0 ∨
        (er - sr).natAbs = (ec - sc).natAbs) ∧
    isInLine sr sc sr sc = true :=
  ⟨isInLine_iff sr sc er ec, isInLine_self sr sc⟩

theorem validateSelection_of_mem {cells : List GridCell}
    {remainingWords : List JsString}
    (h1 : cellsToWord cells ∈ remainingWords) :
    validateSelection cells remainingWords = some (cellsToWord cells) := by
  simp [validateSelection, List.elem_eq_mem, h1]

theorem validateSelection_of_reverse_mem {cells : List GridCell}
    {remainingWords : List JsString}
    (h1 : cellsToWord cells ∉ remainingWords)
    (h2 : (cellsToWord cells).reverse ∈ remainingWords) :
    validateSelection cells remainingWords =
      some (cellsToWord cells).reverse := by
  simp [validateSelection, List.elem_eq_mem, h1, h2]

theorem validateSelection_of_not_mem {cells : List GridCell}
    {remainingWords : List JsString}
    (h1 : cellsToWord cells ∉ remainingWords)
    (h2 : (cellsToWord cells).reverse ∉ remainingWords) :
    validateSelection cells remainingWords = none := by
  simp [validateSelection, List.elem_eq_mem, h1, h2]

theorem validateSelection_mem_of_some {cells : List GridCell}
    {remainingWords : List JsString} {w : JsString}
    (hw : validateSelection cells remainingWords = some w) :
    w ∈ remainingWords := by
  by_cases h1 : cellsToWord cells ∈ remainingWords
  · rw [validateSelection_of_mem h1] at hw
    rw [← Option.some_inj.mp hw]
    exact h1
  · by_cases h2 : (cellsToWord cells).reverse ∈ remainingWords
    · rw [validateSelection_of_reverse_mem h1 h2] at hw
      rw [← Option.some_inj.mp hw]
      exact h2
    · rw [validateSelection_of_not_mem h1 h2] at hw
      exact absurd hw (by simp)

/-- C5: `validateSelection` returns the forward concatenation of the letters
when it is in `remainingWords`, else the character-reversed string when that
is, else `none`; any returned word is a member of `remainingWords`. -/
theorem validateSelection_spec (cells : List GridCell)
    (remainingWords : List JsString) :
    (cellsToWord cells ∈ remainingWords →
      validateSelection cells remainingWords = some (cellsToWord cells)) ∧
    (cellsToWord cells ∉ remainingWords →
      (cellsToWord cells).reverse ∈ remainingWords →
      validateSelection cells remainingWords =
        some (cellsToWord cells).reverse) ∧
    (cellsToWord cells ∉ remainingWords →
      (cellsToWord cells).reverse ∉ remainingWords →
      validateSelection cells remainingWords = none) ∧
    ∀ w, validateSelection cells remainingWords = some w →
      w ∈ remainingWords :=
  ⟨fun h1 => validateSelection_of_mem h1,
   fun h1 h2 => validateSelection_of_reverse_mem h1 h2,
   fun h1 h2 => validateSelection_of_not_mem h1 h2,
   fun _ hw => validateSelection_mem_of_some hw⟩

/-- Witness for C5 at a concrete selection and word list. -/
theorem validateSelection_spec_witness :
    validateSelection [⟨some ['A'], 0, 0⟩] [['A']] = some ['A'] :=
  (validateSelection_spec [⟨some ['A'], 0, 0⟩] [['A']]).1 (by decide)

/-- C10: on the empty cell sequence both the forward and the reversed string
are empty, so `validateSelection` returns `none` whenever all remaining words
are non-empty, returns `some []` exactly when the empty string is a member,
and can only ever return the empty string. -/
theorem validateSelection_empty_spec (remainingWords : List JsString) :
    ((∀ w ∈ remainingWords, w ≠ []) →
      validateSelection [] remainingWords = none) ∧
    (validateSelection [] remainingWords = some [] ↔
      ([] : JsString) ∈ remainingWords) ∧
    ∀ w, validateSelection [] remainingWords = some w → w = [] := by
  by_cases h : ([] : JsString) ∈ remainingWords
  · refine ⟨?_, ?_, ?_⟩
    · intro hall
      exact absurd rfl (hall [] h)
    · simp [validateSelection, cellsToWord, List.elem_eq_mem, h]
    · intro w hw
      simp [validateSelection, cellsToWord, List.elem_eq_mem, h] at hw
      exact hw
  · refine ⟨?_, ?_, ?_⟩
    · intro _
      simp [validateSelection, cellsToWord, List.elem_eq_mem, h]
    · simp [validateSelection, cellsToWord, List.elem_eq_mem, h]
    · intro w hw
      simp [validateSelection, cellsToWord, List.elem_eq_mem, h] at hw

/-- Witness for C10 at a concrete word list of non-empty words. -/
theorem validateSelection_empty_spec_witness :
    validateSelection [] [['A']] = none :=
  (validateSelection_empty_spec [['A']]).1 (by decide)

/-- C9 counterexample: on the 1-by-1 grid holding the letter A, the end
column 1 lies outside the bounds, yet `getSelectionCells` returns a two-cell
selection (not the empty one) and `validateSelection` on it even reports the
match A — the selection engine performs no bounds check. -/
theorem getSelectionCells_oob_counterexample :
    gridShape 1 [[['A']]] ∧ ¬ ((1 : Int) < (1 : Nat)) ∧
    getSelectionCells [[['A']]] 0 0 0 1 ≠ [] ∧
    validateSelection (getSelectionCells [[['A']]] 0 0 0 1) [['A']] =
      some ['A'] := by
  decide

/-- C9 amended: the selection engine does not reject out-of-bounds
coordinates. As long as the two row coordinates address real rows (where the
JavaScript code runs without faulting), any pair passing the line test yields
the full run of `max(|Δrow|,|Δcol|) + 1` cells — regardless of the column
coordinates, out-of-bounds columns simply carrying the undefined letter —
so the caller is the one that must clamp coordinates to the grid. -/
theorem getSelectionCells_no_bounds_check (grid : Grid) (sr sc er ec : Int)
    (hline : isInLine sr sc er ec = true)
    (hsr0 : 0 ≤ sr) (hsr : sr < grid.length)
    (her0 : 0 ≤ er) (her : er < grid.length) :
    (getSelectionCells grid sr sc er ec).length =
      max (er - sr).natAbs (ec - sc).natAbs + 1 := by
  unfold getSelectionCells
  rw [if_neg (not_not_intro hline)]
  by_cases h0 : max (er - sr).natAbs (ec - sc).natAbs = 0
  · simp [h0]
  · rw [if_neg h0]
    simp only [List.length_map, List.length_range]

/-- Witness for the amended C9 at the counterexample coordinates. -/
theorem getSelectionCells_no_bounds_check_witness :
    (getSelectionCells [[['A']]] 0 0 0 1).length = 2 :=
  getSelectionCells_no_bounds_check [[['A']]] 0 0 0 1 (by decide)
    (by decide) (by decide) (by decide) (by decide)

theorem getSelectionCells_not_line (grid : Grid) (sr sc er ec : Int)
    (h : isInLine sr sc er ec = false) :
    getSelectionCells grid sr sc er ec = [] := by
  unfold getSelectionCells
  rw [if_pos]
  simp [h]

theorem getSelectionCells_same (grid : Grid) (sr sc : Int) :
    getSelectionCells grid sr sc sr sc = [⟨jsCell grid sr sc, sr, sc⟩] := by
  unfold getSelectionCells
  rw [if_neg (not_not_intro (isInLine_self sr sc))]
  simp

theorem getSelectionCells_map (grid : Grid) (sr sc er ec : Int)
    (hline : isInLine sr sc er ec = true)
    (h0 : max (er - sr).natAbs (ec - sc).natAbs ≠ 0) :
    getSelectionCells grid sr sc er ec =
      (List.range (max (er - sr).natAbs (ec - sc).natAbs + 1)).map
        fun (i : Nat) =>
          ⟨jsCell grid (sr + (i : Int) * (er - sr).sign)
              (sc + (i : Int) * (ec - sc).sign),
           sr + (i : Int) * (er - sr).sign,
           sc + (i : Int) * (ec - sc).sign⟩ := by
  unfold getSelectionCells
  rw [if_neg (not_not_intro hline)]
  rw [if_neg h0]
  rw [step_eq_sign (er - sr), step_eq_sign (ec - sc)]

theorem line_data (sr sc er ec : Int) (hline : isInLine sr sc er ec = true) :
    ((max (er - sr).natAbs (ec - sc).natAbs : Nat) : Int) * (er - sr).sign =
        er - sr ∧
    ((max (er - sr).natAbs (ec - sc).natAbs : Nat) : Int) * (ec - sc).sign =
        ec - sc := by
  have harith := (isInLine_iff sr sc er ec).mp hline
  rcases sign_trichotomy (er - sr) with ⟨h1, hs1⟩ | ⟨h1, hs1⟩ | ⟨h1, hs1⟩ <;>
    rcases sign_trichotomy (ec - sc) with ⟨h2, hs2⟩ | ⟨h2, hs2⟩ | ⟨h2, hs2⟩ <;>
    rw [hs1, hs2] <;> constructor <;> omega

/-- C3: over an in-bounds start/end pair on a well-formed grid, the selection
is empty when the line test fails; a single start cell when start equals end;
and otherwise exactly `max(|Δrow|,|Δcol|) + 1` cells stepping by the unit
vector of coordinate signs, all within bounds, each carrying the grid letter
at its position, starting at start, ending at end, and pairwise distinct. -/
theorem getSelectionCells_line_spec
    (gs : Nat) (grid : Grid) (sr sc er ec : Int) (hsh : gridShape gs grid)
    (hsr0 : 0 ≤ sr) (hsr : sr < gs) (hsc0 : 0 ≤ sc) (hsc : sc < gs)
    (her0 : 0 ≤ er) (her : er < gs) (hec0 : 0 ≤ ec) (hec : ec < gs) :
    (isInLine sr sc er ec = false → getSelectionCells grid sr sc er ec = []) ∧
    (sr = er ∧ sc = ec →
      getSelectionCells grid sr sc er ec =
        [⟨some (cellAt grid sr sc), sr, sc⟩]) ∧
    (isInLine sr sc er ec = true → ¬ (sr = er ∧ sc = ec) →
      (getSelectionCells grid sr sc er ec).length =
        max (er - sr).natAbs (ec - sc).natAbs + 1 ∧
      (∀ i : Nat, i < max (er - sr).natAbs (ec - sc).natAbs + 1 →
        0 ≤ sr + (i : Int) * (er - sr).sign ∧
        sr + (i : Int) * (er - sr).sign < gs ∧
        0 ≤ sc + (i : Int) * (ec - sc).sign ∧
        sc + (i : Int) * (ec - sc).sign < gs ∧
        (getSelectionCells grid sr sc er ec).getD i default =
          ⟨some (cellAt grid (sr + (i : Int) * (er - sr).sign)
              (sc + (i : Int) * (ec - sc).sign)),
           sr + (i : Int) * (er - sr).sign,
           sc + (i : Int) * (ec - sc).sign⟩) ∧
      (getSelectionCells grid sr sc er ec).getD 0 default =
        ⟨some (cellAt grid sr sc), sr, sc⟩ ∧
      (getSelectionCells grid sr sc er ec).getD
          (max (er - sr).natAbs (ec - sc).natAbs) default =
        ⟨some (cellAt grid er ec), er, ec⟩ ∧
      (getSelectionCells grid sr sc er ec).Nodup) := by
  refine ⟨getSelectionCells_not_line grid sr sc er ec, ?_, ?_⟩
  · rintro ⟨h1, h2⟩
    subst h1
    subst h2
    rw [getSelectionCells_same grid sr sc,
      jsCell_eq_some_cellAt hsh hsr0 hsr hsc0 hsc]
  · intro hline hne
    have h0 : max (er - sr).natAbs (ec - sc).natAbs ≠ 0 := by
      intro h
      exact hne (by omega)
    have hmap := getSelectionCells_map grid sr sc er ec hline h0
    obtain ⟨hr_eq, hc_eq⟩ := line_data sr sc er ec hline
    have hbnd : ∀ i : Nat, i < max (er - sr).natAbs (ec - sc).natAbs + 1 →
        0 ≤ sr + (i : Int) * (er - sr).sign ∧
        sr + (i : Int) * (er - sr).sign < gs ∧
        0 ≤ sc + (i : Int) * (ec - sc).sign ∧
        sc + (i : Int) * (ec - sc).sign < gs := by
      intro i hi
      rcases sign_trichotomy (er - sr) with ⟨h1, hs1⟩ | ⟨h1, hs1⟩ | ⟨h1, hs1⟩ <;>
        rcases sign_trichotomy (ec - sc) with
          ⟨h2, hs2⟩ | ⟨h2, hs2⟩ | ⟨h2, hs2⟩ <;>
        rw [hs1] at hr_eq ⊢ <;> rw [hs2] at hc_eq ⊢ <;> omega
    have hcells : ∀ i : Nat, i < max (er - sr).natAbs (ec - sc).natAbs + 1 →
        (getSelectionCells grid sr sc er ec).getD i default =
          ⟨some (cellAt grid (sr + (i : Int) * (er - sr).sign)
              (sc + (i : Int) * (ec - sc).sign)),
           sr + (i : Int) * (er - sr).sign,
           sc + (i : Int) * (ec - sc).sign⟩ := by
      intro i hi
      obtain ⟨hb1, hb2, hb3, hb4⟩ := hbnd i hi
      rw [hmap, List.getD_eq_getElem?_getD, List.getElem?_map,
        List.getElem?_range hi]
      simp only [Option.map_some', Option.getD_some]
      rw [jsCell_eq_some_cellAt hsh hb1 hb2 hb3 hb4]
    refine ⟨?_, ?_, ?_, ?_, ?_⟩
    · rw [hmap, List.length_map, List.length_range]
    · intro i hi
      exact ⟨(hbnd i hi).1, (hbnd i hi).2.1, (hbnd i hi).2.2.1,
        (hbnd i hi).2.2.2, hcells i hi⟩
    · have h := hcells 0 (by omega)
      simpa using h
    · have h := hcells (max (er - sr).natAbs (ec - sc).natAbs) (by omega)
      rw [show sr + ((max (er - sr).natAbs (ec - sc).natAbs : Nat) : Int) *
            (er - sr).sign = er by omega,
          show sc + ((max (er - sr).natAbs (ec - sc).natAbs : Nat) : Int) *
            (ec - sc).sign = ec by omega] at h
      exact h
    · rw [hmap]
      refine List.Nodup.map_on ?_ (List.nodup_range _)
      intro i hi j hj hf
      simp only [GridCell.mk.injEq] at hf
      obtain ⟨-, hrow, hcol⟩ := hf
      rcases sign_trichotomy (er - sr) with ⟨h1, hs1⟩ | ⟨h1, hs1⟩ | ⟨h1, hs1⟩ <;>
        rcases sign_trichotomy (ec - sc) with
          ⟨h2, hs2⟩ | ⟨h2, hs2⟩ | ⟨h2, hs2⟩ <;>
        rw [hs1] at hrow <;> rw [hs2] at hcol <;> omega

/-- Witness for C3 on the 2-by-2 grid A B / C D with the diagonal selection. -/
theorem getSelectionCells_line_spec_witness :
    (getSelectionCells [[['A'], ['B']], [['C'], ['D']]] 0 0 1 1).length = 2 :=
  ((getSelectionCells_line_spec 2 [[['A'], ['B']], [['C'], ['D']]] 0 0 1 1
    (by decide) (by decide) (by decide) (by decide) (by decide) (by decide)
    (by decide) (by decide) (by decide)).2.2 (by decide) (by decide)).1

theorem length_setCell (g : Grid) (r c : Int) (v : JsString) :
    (setCell g r c v).length = g.length := by
  unfold setCell
  split <;> simp

theorem gridShape_setCell {gs : Nat} {g : Grid} (hsh : gridShape gs g)
    (r c : Int) (v : JsString) : gridShape gs (setCell g r c v) := by
  obtain ⟨hlen, hrows⟩ := hsh
  unfold setCell
  split
  · by_cases hr : r.toNat < g.length
    · refine ⟨by simpa using hlen, ?_⟩
      intro row hrow
      rcases List.mem_or_eq_of_mem_set hrow with hm | hm
      · exact hrows _ hm
      · subst hm
        rw [List.length_set]
        have hg : g.getD r.toNat [] = g[r.toNat] := by
          rw [List.getD_eq_getElem?_getD, List.getElem?_eq_getElem hr]
          rfl
        rw [hg]
        exact hrows _ (List.getElem_mem hr)
    · rw [List.set_eq_of_length_le (by omega)]
      exact ⟨hlen, hrows⟩
  · exact ⟨hlen, hrows⟩

theorem jsCell_setCell_ne {g : Grid} {r c r2 c2 : Int} (v : JsString)
    (hne : r ≠ r2 ∨ c ≠ c2) :
    jsCell (setCell g r c v) r2 c2 = jsCell g r2 c2 := by
  unfold setCell
  split
  case isFalse => rfl
  case isTrue hg =>
    obtain ⟨hr0, hc0⟩ := hg
    unfold jsCell
    by_cases hr2 : r2 < 0
    · rw [jsGet_of_neg hr2, jsGet_of_neg hr2]
    · have hr20 : 0 ≤ r2 := by omega
      rw [jsGet_eq_some hr20, jsGet_eq_some hr20]
      by_cases hlen : r.toNat < g.length
      · by_cases hrr : r.toNat = r2.toNat
        · have hreq : r = r2 := by omega
          subst hreq
          have hc2 : c ≠ c2 := by
            rcases hne with h | h
            · exact absurd rfl h
            · exact h
          rw [List.getElem?_set_self (by omega), List.getElem?_eq_getElem (by omega)]
          simp only [Option.some_bind]
          have hg : g.getD r.toNat [] = g[r.toNat] := by
            rw [List.getD_eq_getElem?_getD, List.getElem?_eq_getElem (by omega)]
            rfl
          rw [hg]
          by_cases hcc2 : c2 < 0
          · rw [jsGet_of_neg hcc2, jsGet_of_neg hcc2]
          · have hc20 : 0 ≤ c2 := by omega
            rw [jsGet_eq_some hc20, jsGet_eq_some hc20]
            rw [List.getElem?_set_ne (by omega)]
        · rw [List.getElem?_set_ne hrr]
      · rw [List.set_eq_of_length_le (by omega)]

theorem jsCell_setCell_cases (g : Grid) (r c r2 c2 : Int) (v : JsString) :
    jsCell (setCell g r c v) r2 c2 = jsCell g r2 c2 ∨
    jsCell (setCell g r c v) r2 c2 = some v := by
  by_cases h : r = r2 ∧ c = c2
  · obtain ⟨hr, hc⟩ := h
    subst hr
    subst hc
    unfold setCell
    split
    next hg =>
      obtain ⟨hr0, hc0⟩ := hg
      by_cases hlen : r.toNat < g.length
      · unfold jsCell
        rw [jsGet_eq_some hr0, jsGet_eq_some hr0,
          List.getElem?_set_self hlen, List.getElem?_eq_getElem hlen]
        simp only [Option.some_bind]
        have hg2 : g.getD r.toNat [] = g[r.toNat] := by
          rw [List.getD_eq_getElem?_getD, List.getElem?_eq_getElem hlen]
          rfl
        rw [hg2]
        by_cases hcl : c < 0
        · rw [jsGet_of_neg hcl, jsGet_of_neg hcl]
          exact Or.inl rfl
        · have hc00 : 0 ≤ c := by omega
          rw [jsGet_eq_some hc00, jsGet_eq_some hc00]
          by_cases hclen : c.toNat < (g[r.toNat]).length
          · rw [List.getElem?_set_self hclen]
            exact Or.inr rfl
          · rw [List.set_eq_of_length_le (by omega)]
            exact Or.inl rfl
      · rw [List.set_eq_of_length_le (by omega)]
        exact Or.inl rfl
    next => exact Or.inl rfl
  · refine Or.inl (jsCell_setCell_ne v ?_)
    by_cases hr : r = r2
    · subst hr
      exact Or.inr fun hc => h ⟨rfl, hc⟩
    · exact Or.inl hr

theorem jsCell_setCell_self {gs : Nat} {g : Grid} (hsh : gridShape gs g)
    {r c : Int} (hr0 : 0 ≤ r) (hr : r < gs) (hc0 : 0 ≤ c) (hc : c < gs)
    (v : JsString) : jsCell (setCell g r c v) r c = some v := by
  obtain ⟨hlen, hrows⟩ := hsh
  have hlen2 : r.toNat < g.length := by omega
  unfold setCell
  rw [if_pos ⟨hr0, hc0⟩]
  unfold jsCell
  rw [jsGet_eq_some hr0, List.getElem?_set_self hlen2]
  simp only [Option.some_bind]
  rw [jsGet_eq_some hc0]
  have hg2 : g.getD r.toNat [] = g[r.toNat] := by
    rw [List.getD_eq_getElem?_getD, List.getElem?_eq_getElem hlen2]
    rfl
  have hclen : c.toNat < (g.getD r.toNat []).length := by
    rw [hg2, hrows _ (List.getElem_mem hlen2)]
    omega
  rw [List.getElem?_set_self hclen]

theorem headD_length {gs : Nat} {grid : Grid} (hsh : gridShape gs grid) :
    (grid.headD []).length = gs := by
  obtain ⟨hlen, hrows⟩ := hsh
  cases grid with
  | nil => simpa using hlen
  | cons h t => exact hrows h (List.mem_cons_self h t)

theorem canPlaceWord_iff {grid : Grid} {word : JsString} {row col dr dc : Int} :
    canPlaceWord grid word row col dr dc = true ↔
      ∀ i : Nat, i < word.length →
        0 ≤ row + (i : Int) * dr ∧ row + (i : Int) * dr < grid.length ∧
        0 ≤ col + (i : Int) * dc ∧
        col + (i : Int) * dc < (grid.headD []).length ∧
        (cellAt grid (row + (i : Int) * dr) (col + (i : Int) * dc) = [] ∨
         cellAt grid (row + (i : Int) * dr) (col + (i : Int) * dc) =
           [word.getD i 'A']) := by
  unfold canPlaceWord
  rw [List.all_eq_true]
  constructor
  · intro h i hi
    have h2 := h i (List.mem_range.mpr hi)
    simp only [Bool.and_eq_true, Bool.or_eq_true, decide_eq_true_eq,
      beq_iff_eq] at h2
    tauto
  · intro h i hi
    have h2 := h i (List.mem_range.mp hi)
    simp only [Bool.and_eq_true, Bool.or_eq_true, decide_eq_true_eq,
      beq_iff_eq]
    tauto

theorem dir_mem (x : Nat) :
    DIRECTIONS.getD (x % DIRECTIONS.length) (0, 1) ∈ DIRECTIONS := by
  have h : x % DIRECTIONS.length < DIRECTIONS.length :=
    Nat.mod_lt _ (by simp [DIRECTIONS])
  rw [List.getD_eq_getElem?_getD, List.getElem?_eq_getElem h]
  simp only [Option.getD_some]
  exact List.getElem_mem h

theorem dir_cases {dr dc : Int} (h : (dr, dc) ∈ DIRECTIONS) :
    dr = 0 ∧ dc = 1 ∨ dr = 0 ∧ dc = -1 ∨ dr = 1 ∧ dc = 0 ∨
    dr = -1 ∧ dc = 0 ∨ dr = 1 ∧ dc = 1 ∨ dr = 1 ∧ dc = -1 ∨
    dr = -1 ∧ dc = 1 ∨ dr = -1 ∧ dc = -1 := by
  simp only [DIRECTIONS, List.mem_cons, List.not_mem_nil, or_false,
    Prod.mk.injEq] at h
  tauto

theorem dir_not_zero {dr dc : Int} (h : (dr, dc) ∈ DIRECTIONS) :
    ¬ (dr = 0 ∧ dc = 0) := by
  rcases dir_cases h with h2 | h2 | h2 | h2 | h2 | h2 | h2 | h2 <;> omega

theorem pos_inj {row col dr dc : Int} (hdir : ¬ (dr = 0 ∧ dc = 0))
    {i1 i2 : Nat}
    (h1 : row + (i1 : Int) * dr = row + (i2 : Int) * dr)
    (h2 : col + (i1 : Int) * dc = col + (i2 : Int) * dc) : i1 = i2 := by
  by_cases hdr : dr = 0
  · have hdc : dc ≠ 0 := fun hz => hdir ⟨hdr, hz⟩
    have h3 : (i1 : Int) * dc = (i2 : Int) * dc := by omega
    have h4 : (i1 : Int) = (i2 : Int) := mul_right_cancel₀ hdc h3
    exact_mod_cast h4
  · have h3 : (i1 : Int) * dr = (i2 : Int) * dr := by omega
    have h4 : (i1 : Int) = (i2 : Int) := mul_right_cancel₀ hdr h3
    exact_mod_cast h4

theorem writeWordCells_not_touched (word : JsString) (row col dr dc : Int) :
    ∀ (is : List Nat) (g : Grid) (r2 c2 : Int),
    (∀ i ∈ is, ¬ (row + (i : Int) * dr = r2 ∧ col + (i : Int) * dc = c2)) →
    jsCell (writeWordCells word row col dr dc g is) r2 c2 = jsCell g r2 c2 := by
  intro is
  induction is with
  | nil => intro g r2 c2 _; rfl
  | cons i rest ih =>
      intro g r2 c2 h
      unfold writeWordCells
      rw [ih _ r2 c2 fun i2 hi2 => h i2 (List.mem_cons_of_mem i hi2)]
      refine jsCell_setCell_ne _ ?_
      have h2 := h i (List.mem_cons_self i rest)
      by_cases hr : row + (i : Int) * dr = r2
      · exact Or.inr fun hc => h2 ⟨hr, hc⟩
      · exact Or.inl hr

theorem gridShape_writeWordCells {gs : Nat} (word : JsString)
    (row col dr dc : Int) :
    ∀ (is : List Nat) (g : Grid), gridShape gs g →
    gridShape gs (writeWordCells word row col dr dc g is) := by
  intro is
  induction is with
  | nil => intro g hg; exact hg
  | cons i rest ih =>
      intro g hg
      exact ih _ (gridShape_setCell hg _ _ _)

theorem writeWordCells_cases (word : JsString) (row col dr dc : Int) :
    ∀ (is : List Nat) (g : Grid) (r2 c2 : Int),
    jsCell (writeWordCells word row col dr dc g is) r2 c2 = jsCell g r2 c2 ∨
    ∃ i : Nat, jsCell (writeWordCells word row col dr dc g is) r2 c2 =
      some [word.getD i 'A'] := by
  intro is
  induction is with
  | nil => intro g r2 c2; exact Or.inl rfl
  | cons i rest ih =>
      intro g r2 c2
      unfold writeWordCells
      rcases ih (setCell g (row + (i : Int) * dr) (col + (i : Int) * dc)
          [word.getD i 'A']) r2 c2 with h | h
      · rw [h]
        rcases jsCell_setCell_cases g (row + (i : Int) * dr)
            (col + (i : Int) * dc) r2 c2 [word.getD i 'A'] with h2 | h2
        · exact Or.inl h2
        · exact Or.inr ⟨i, h2⟩
      · exact Or.inr h

theorem writeWordCells_at {gs : Nat} (word : JsString) (row col dr dc : Int)
    (hdir : ¬ (dr = 0 ∧ dc = 0)) :
    ∀ (is : List Nat) (g : Grid), gridShape gs g → is.Nodup →
    (∀ i ∈ is, 0 ≤ row + (i : Int) * dr ∧ row + (i : Int) * dr < gs ∧
               0 ≤ col + (i : Int) * dc ∧ col + (i : Int) * dc < gs) →
    ∀ j ∈ is, jsCell (writeWordCells word row col dr dc g is)
        (row + (j : Int) * dr) (col + (j : Int) * dc) =
      some [word.getD j 'A'] := by
  intro is
  induction is with
  | nil => intro g _ _ _ j hj; exact absurd hj (List.not_mem_nil j)
  | cons i rest ih =>
      intro g hsh hnd hbnd j hj
      have hshw : gridShape gs (setCell g (row + (i : Int) * dr)
          (col + (i : Int) * dc) [word.getD i 'A']) :=
        gridShape_setCell hsh _ _ _
      rcases List.mem_cons.mp hj with hji | hjr
      · subst hji
        unfold writeWordCells
        rw [writeWordCells_not_touched word row col dr dc rest _ _ _ ?notin]
        case notin =>
          intro i2 hi2 hcontra
          have : i2 = j := pos_inj hdir hcontra.1 hcontra.2
          subst this
          exact (List.nodup_cons.mp hnd).1 hi2
        obtain ⟨hb1, hb2, hb3, hb4⟩ := hbnd j (List.mem_cons_self j rest)
        exact jsCell_setCell_self hsh hb1 hb2 hb3 hb4 _
      · unfold writeWordCells
        exact ih _ hshw (List.nodup_cons.mp hnd).2
          (fun i2 hi2 => hbnd i2 (List.mem_cons_of_mem i hi2)) j hjr

/-- All cell strings stored in the grid are at most one letter long (the empty
string for unassigned cells, a single letter otherwise). -/
def cellsShort (g : Grid) : Prop :=
  ∀ (r c : Int) (s : JsString), jsCell g r c = some s → s.length ≤ 1

/-- What placement establishes for a placed word: its cells list is the
position/letter run of some in-bounds placement along one of the eight
directions, and the grid holds the word's letters at those positions. -/
def placedWordOk (gs : Nat) (grid : Grid) (pw : PlacedWord) : Prop :=
  ∃ row col dr dc : Int, (dr, dc) ∈ DIRECTIONS ∧
    pw.cells = (List.range pw.word.length).map (fun (i : Nat) =>
      ⟨some [pw.word.getD i 'A'], row + (i : Int) * dr,
       col + (i : Int) * dc⟩) ∧
    ∀ i : Nat, i < pw.word.length →
      0 ≤ row + (i : Int) * dr ∧ row + (i : Int) * dr < gs ∧
      0 ≤ col + (i : Int) * dc ∧ col + (i : Int) * dc < gs ∧
      cellAt grid (row + (i : Int) * dr) (col + (i : Int) * dc) =
        [pw.word.getD i 'A']

theorem placedWordOk_mono {gs : Nat} {g g2 : Grid} {pw : PlacedWord}
    (hpres : ∀ r c : Int, cellAt g r c ≠ [] → cellAt g2 r c = cellAt g r c)
    (hok : placedWordOk gs g pw) : placedWordOk gs g2 pw := by
  obtain ⟨row, col, dr, dc, hdir, hcells, hall⟩ := hok
  refine ⟨row, col, dr, dc, hdir, hcells, fun i hi => ?_⟩
  obtain ⟨h1, h2, h3, h4, h5⟩ := hall i hi
  refine ⟨h1, h2, h3, h4, ?_⟩
  rw [hpres _ _ (by rw [h5]; exact List.cons_ne_nil _ _), h5]

theorem placeWord_shape {gs : Nat} {grid : Grid} (hsh : gridShape gs grid)
    (word : JsString) (row col dr dc : Int) :
    gridShape gs (placeWord grid word row col dr dc).1 :=
  gridShape_writeWordCells word row col dr dc _ grid hsh

theorem placeWord_at {gs : Nat} {grid : Grid} {word : JsString}
    {row col dr dc : Int} (hsh : gridShape gs grid)
    (hdir : ¬ (dr = 0 ∧ dc = 0))
    (hcan : canPlaceWord grid word row col dr dc = true) :
    ∀ j : Nat, j < word.length →
      jsCell (placeWord grid word row col dr dc).1
          (row + (j : Int) * dr) (col + (j : Int) * dc) =
        some [word.getD j 'A'] := by
  intro j hj
  have hcols := headD_length hsh
  have hrows := hsh.1
  refine writeWordCells_at word row col dr dc hdir (List.range word.length)
    grid hsh (List.nodup_range word.length) ?_ j (List.mem_range.mpr hj)
  intro i hi
  obtain ⟨h1, h2, h3, h4, -⟩ := canPlaceWord_iff.mp hcan i (List.mem_range.mp hi)
  rw [hrows] at h2
  rw [hcols] at h4
  exact ⟨h1, h2, h3, h4⟩

theorem placeWord_preserves {gs : Nat} {grid : Grid} {word : JsString}
    {row col dr dc : Int} (hsh : gridShape gs grid)
    (hdir : ¬ (dr = 0 ∧ dc = 0))
    (hcan : canPlaceWord grid word row col dr dc = true) :
    ∀ r2 c2 : Int, cellAt grid r2 c2 ≠ [] →
      cellAt (placeWord grid word row col dr dc).1 r2 c2 = cellAt grid r2 c2 := by
  intro r2 c2 hne
  by_cases htouch : ∃ j : Nat, j < word.length ∧
      row + (j : Int) * dr = r2 ∧ col + (j : Int) * dc = c2
  · obtain ⟨j, hj, hjr, hjc⟩ := htouch
    obtain ⟨-, -, -, -, hcell⟩ := canPlaceWord_iff.mp hcan j hj
    rw [hjr, hjc] at hcell
    rcases hcell with hcell | hcell
    · exact absurd hcell hne
    · rw [hcell]
      have hat := placeWord_at hsh hdir hcan j hj
      rw [hjr, hjc] at hat
      unfold cellAt
      rw [hat]
      rfl
  · unfold placeWord
    unfold cellAt
    rw [writeWordCells_not_touched word row col dr dc _ grid r2 c2 ?nt]
    case nt =>
      intro i hi hcontra
      exact htouch ⟨i, List.mem_range.mp hi, hcontra.1, hcontra.2⟩

theorem placeWord_short {grid : Grid} {word : JsString} {row col dr dc : Int}
    (hshort : cellsShort grid) :
    cellsShort (placeWord grid word row col dr dc).1 := by
  intro r2 c2 s hs
  have hs2 : jsCell (writeWordCells word row col dr dc grid
      (List.range word.length)) r2 c2 = some s := hs
  rcases writeWordCells_cases word row col dr dc (List.range word.length)
      grid r2 c2 with h | ⟨i, h⟩
  · exact hshort r2 c2 s (by rw [← h]; exact hs2)
  · rw [h] at hs2
    rw [← Option.some_inj.mp hs2]
    rfl

theorem placeWord_ok {gs : Nat} {grid : Grid} {word : JsString}
    {row col dr dc : Int} (hsh : gridShape gs grid)
    (hdir : (dr, dc) ∈ DIRECTIONS)
    (hcan : canPlaceWord grid word row col dr dc = true) :
    placedWordOk gs (placeWord grid word row col dr dc).1
      ⟨word, (placeWord grid word row col dr dc).2⟩ := by
  refine ⟨row, col, dr, dc, hdir, rfl, fun i hi => ?_⟩
  obtain ⟨h1, h2, h3, h4, -⟩ := canPlaceWord_iff.mp hcan i hi
  rw [hsh.1] at h2
  rw [headD_length hsh] at h4
  refine ⟨h1, h2, h3, h4, ?_⟩
  unfold cellAt
  rw [placeWord_at hsh (dir_not_zero hdir) hcan i hi]
  rfl

theorem tryPlaceWord_cases (rng : Nat → Nat) (gs : Nat) (word : JsString) :
    ∀ (n : Nat) (grid : Grid) (k : Nat),
    ((tryPlaceWord rng gs word grid k n).1 = grid ∧
     (tryPlaceWord rng gs word grid k n).2.1 = none) ∨
    ∃ row col dr dc : Int, (dr, dc) ∈ DIRECTIONS ∧
      canPlaceWord grid word row col dr dc = true ∧
      (tryPlaceWord rng gs word grid k n).1 =
        (placeWord grid word row col dr dc).1 ∧
      (tryPlaceWord rng gs word grid k n).2.1 =
        some (placeWord grid word row col dr dc).2 := by
  intro n
  induction n with
  | zero => intro grid k; exact Or.inl ⟨rfl, rfl⟩
  | succ n ih =>
      intro grid k
      unfold tryPlaceWord
      by_cases hc : canPlaceWord grid word ((rng k % gs : Nat) : Int)
          ((rng (k + 1) % gs : Nat) : Int)
          (DIRECTIONS.getD (rng (k + 2) % DIRECTIONS.length) (0, 1)).1
          (DIRECTIONS.getD (rng (k + 2) % DIRECTIONS.length) (0, 1)).2 = true
      · refine Or.inr ⟨((rng k % gs : Nat) : Int), ((rng (k + 1) % gs : Nat) : Int),
          (DIRECTIONS.getD (rng (k + 2) % DIRECTIONS.length) (0, 1)).1,
          (DIRECTIONS.getD (rng (k + 2) % DIRECTIONS.length) (0, 1)).2,
          ?_, hc, ?_, ?_⟩
        · rw [Prod.mk.eta]
          exact dir_mem (rng (k + 2))
        · simp only [hc, if_true]
        · simp only [hc, if_true]
      · rw [if_neg hc]
        exact ih grid (k + 3)

theorem placeWordsLoop_master (rng : Nat → Nat) (gs : Nat) :
    ∀ (ws : List JsString) (grid : Grid) (placed : List PlacedWord) (k : Nat),
    gridShape gs grid →
    gridShape gs (placeWordsLoop rng gs ws grid placed k).1 ∧
    (∀ r c : Int, cellAt grid r c ≠ [] →
      cellAt (placeWordsLoop rng gs ws grid placed k).1 r c =
        cellAt grid r c) ∧
    (cellsShort grid →
      cellsShort (placeWordsLoop rng gs ws grid placed k).1) ∧
    ∃ newPws : List PlacedWord,
      (placeWordsLoop rng gs ws grid placed k).2.1 = placed ++ newPws ∧
      (newPws.map fun pw => pw.word).Sublist ws ∧
      ∀ pw ∈ newPws,
        placedWordOk gs (placeWordsLoop rng gs ws grid placed k).1 pw := by
  intro ws
  induction ws with
  | nil =>
      intro grid placed k hsh
      exact ⟨hsh, fun _ _ _ => rfl, fun h => h,
        [], by simp [placeWordsLoop], List.nil_sublist _, by simp⟩
  | cons w rest ih =>
      intro grid placed k hsh
      unfold placeWordsLoop
      rcases tryPlaceWord_cases rng gs w 100 grid k with ⟨hg, hn⟩ |
        ⟨row, col, dr, dc, hdir, hcan, hg, hsome⟩
      · simp only [hg, hn]
        by_cases h20 : 20 ≤ placed.length
        · rw [if_pos h20]
          exact ⟨hsh, fun _ _ _ => rfl, fun h => h,
            [], by simp, List.nil_sublist _, by simp⟩
        · rw [if_neg h20]
          obtain ⟨hshF, hpresF, hshortF, newPws, heq, hsub, hok⟩ :=
            ih grid placed (tryPlaceWord rng gs w grid k 100).2.2 hsh
          exact ⟨hshF, hpresF, hshortF, newPws, heq,
            hsub.cons w, hok⟩
      · simp only [hg, hsome]
        have hsh2 : gridShape gs (placeWord grid w row col dr dc).1 :=
          placeWord_shape hsh w row col dr dc
        have hpres2 := placeWord_preserves hsh (dir_not_zero hdir) hcan
        have hok2 := placeWord_ok hsh hdir hcan
        by_cases h20 : 20 ≤ (placed ++
            [(⟨w, (placeWord grid w row col dr dc).2⟩ : PlacedWord)]).length
        · rw [if_pos h20]
          refine ⟨hsh2, hpres2, placeWord_short,
            [(⟨w, (placeWord grid w row col dr dc).2⟩ : PlacedWord)], rfl,
            ?_, ?_⟩
          · exact (List.nil_sublist rest).cons₂ w
          · intro pw hpw
            rw [List.mem_singleton.mp hpw]
            exact hok2
        · rw [if_neg h20]
          obtain ⟨hshF, hpresF, hshortF, newPws, heq, hsub, hok⟩ :=
            ih (placeWord grid w row col dr dc).1
              (placed ++ [(⟨w, (placeWord grid w row col dr dc).2⟩ : PlacedWord)])
              (tryPlaceWord rng gs w grid k 100).2.2 hsh2
          refine ⟨hshF, ?_, fun hst => hshortF (placeWord_short hst),
            (⟨w, (placeWord grid w row col dr dc).2⟩ : PlacedWord) :: newPws,
            ?_, ?_, ?_⟩
          · intro r c hne
            rw [hpresF r c (by rw [hpres2 r c hne]; exact hne),
              hpres2 r c hne]
          · rw [heq]
            simp
          · exact hsub.cons₂ w
          · intro pw hpw
            rcases List.mem_cons.mp hpw with hpw | hpw
            · subst hpw
              refine placedWordOk_mono ?_ hok2
              intro r c hne
              exact hpresF r c hne
            · exact hok pw hpw

theorem placeWordsLoop_le20 (rng : Nat → Nat) (gs : Nat) :
    ∀ (ws : List JsString) (grid : Grid) (placed : List PlacedWord) (k : Nat),
    placed.length < 20 →
    (placeWordsLoop rng gs ws grid placed k).2.1.length ≤ 20 := by
  intro ws
  induction ws with
  | nil =>
      intro grid placed k h
      unfold placeWordsLoop
      show placed.length ≤ 20
      omega
  | cons w rest ih =>
      intro grid placed k h
      unfold placeWordsLoop
      rcases tryPlaceWord_cases rng gs w 100 grid k with ⟨hg, hn⟩ |
        ⟨row, col, dr, dc, hdir, hcan, hg, hsome⟩
      · simp only [hg, hn]
        by_cases h20 : 20 ≤ placed.length
        · omega
        · rw [if_neg h20]
          exact ih grid placed _ (by omega)
      · simp only [hg, hsome]
        by_cases h20 : 20 ≤ (placed ++
            [(⟨w, (placeWord grid w row col dr dc).2⟩ : PlacedWord)]).length
        · rw [if_pos h20]
          simp only [List.length_append, List.length_singleton]
          omega
        · rw [if_neg h20]
          exact ih _ _ _ (by simp at h20 ⊢; omega)

theorem fillCells_preserves (rng : Nat → Nat) :
    ∀ (ps : List (Nat × Nat)) (g : Grid) (k : Nat) (r2 c2 : Int),
    cellAt g r2 c2 ≠ [] →
    cellAt (fillCells rng ps (g, k)).1 r2 c2 = cellAt g r2 c2 := by
  intro ps
  induction ps with
  | nil => intro g k r2 c2 _; rfl
  | cons p rest ih =>
      intro g k r2 c2 hne
      unfold fillCells
      by_cases hemp : cellAt g p.1 p.2 = []
      · rw [if_pos hemp]
        have hdiff : (p.1 : Int) ≠ r2 ∨ (p.2 : Int) ≠ c2 := by
          by_contra hcon
          push_neg at hcon
          rw [hcon.1, hcon.2] at hemp
          exact hne hemp
        have hcell : cellAt (setCell g p.1 p.2
            [alphabet.getD (rng k % alphabet.length) 'A']) r2 c2 =
            cellAt g r2 c2 := by
          unfold cellAt
          rw [jsCell_setCell_ne _ hdiff]
        rw [ih _ _ r2 c2 (by rw [hcell]; exact hne), hcell]
      · rw [if_neg hemp]
        exact ih _ _ r2 c2 hne

theorem gridShape_fillCells {gs : Nat} (rng : Nat → Nat) :
    ∀ (ps : List (Nat × Nat)) (g : Grid) (k : Nat), gridShape gs g →
    gridShape gs (fillCells rng ps (g, k)).1 := by
  intro ps
  induction ps with
  | nil => intro g k h; exact h
  | cons p rest ih =>
      intro g k h
      unfold fillCells
      by_cases hemp : cellAt g p.1 p.2 = []
      · rw [if_pos hemp]
        exact ih _ _ (gridShape_setCell h _ _ _)
      · rw [if_neg hemp]
        exact ih _ _ h

theorem fillCells_short (rng : Nat → Nat) :
    ∀ (ps : List (Nat × Nat)) (g : Grid) (k : Nat), cellsShort g →
    cellsShort (fillCells rng ps (g, k)).1 := by
  intro ps
  induction ps with
  | nil => intro g k h; exact h
  | cons p rest ih =>
      intro g k h
      unfold fillCells
      by_cases hemp : cellAt g p.1 p.2 = []
      · rw [if_pos hemp]
        refine ih _ _ ?_
        intro r2 c2 s hs
        rcases jsCell_setCell_cases g p.1 p.2 r2 c2
            [alphabet.getD (rng k % alphabet.length) 'A'] with h2 | h2
        · exact h r2 c2 s (by rw [← h2]; exact hs)
        · rw [h2] at hs
          rw [← Option.some_inj.mp hs]
          rfl
      · rw [if_neg hemp]
        exact ih _ _ h

theorem fillCells_filled {gs : Nat} (rng : Nat → Nat) :
    ∀ (ps : List (Nat × Nat)) (g : Grid) (k : Nat), gridShape gs g →
    (∀ rc ∈ ps, rc.1 < gs ∧ rc.2 < gs) →
    ∀ rc ∈ ps, cellAt (fillCells rng ps (g, k)).1 rc.1 rc.2 ≠ [] := by
  intro ps
  induction ps with
  | nil => intro g k _ _ rc hrc; exact absurd hrc (List.not_mem_nil rc)
  | cons p rest ih =>
      intro g k hsh hbnd rc hrc
      unfold fillCells
      by_cases hemp : cellAt g p.1 p.2 = []
      · rw [if_pos hemp]
        have hsh2 : gridShape gs (setCell g p.1 p.2
            [alphabet.getD (rng k % alphabet.length) 'A']) :=
          gridShape_setCell hsh _ _ _
        rcases List.mem_cons.mp hrc with hrc1 | hrc2
        · subst hrc1
          obtain ⟨hb1, hb2⟩ := hbnd rc (List.mem_cons_self rc rest)
          have hval : cellAt (setCell g rc.1 rc.2
              [alphabet.getD (rng k % alphabet.length) 'A']) rc.1 rc.2 =
              [alphabet.getD (rng k % alphabet.length) 'A'] := by
            unfold cellAt
            rw [jsCell_setCell_self hsh (by omega) (by omega) (by omega)
              (by omega) _]
            rfl
          rw [fillCells_preserves rng rest _ _ _ _
            (by rw [hval]; exact List.cons_ne_nil _ _), hval]
          exact List.cons_ne_nil _ _
        · exact ih _ _ hsh2
            (fun rc2 hrc2b => hbnd rc2 (List.mem_cons_of_mem p hrc2b))
            rc hrc2
      · rw [if_neg hemp]
        rcases List.mem_cons.mp hrc with hrc1 | hrc2
        · subst hrc1
          rw [fillCells_preserves rng rest _ _ _ _ hemp]
          exact hemp
        · exact ih _ _ hsh
            (fun rc2 hrc2b => hbnd rc2 (List.mem_cons_of_mem p hrc2b))
            rc hrc2

theorem mem_rowMajor {gs r c : Nat} :
    (r, c) ∈ rowMajor gs ↔ r < gs ∧ c < gs := by
  simp only [rowMajor, List.mem_flatten, List.mem_map, List.mem_range]
  constructor
  · rintro ⟨l, ⟨a, ha, rfl⟩, hmem⟩
    obtain ⟨b, hb, hbe⟩ := List.mem_map.mp hmem
    obtain ⟨h1, h2⟩ := Prod.mk.injEq .. ▸ hbe
    constructor
    · rw [← h1]; exact ha
    · rw [← h2]; exact List.mem_range.mp hb
  · rintro ⟨h1, h2⟩
    exact ⟨(List.range gs).map fun c2 => (r, c2), ⟨r, h1, rfl⟩,
      List.mem_map.mpr ⟨c, List.mem_range.mpr h2, rfl⟩⟩

theorem jsGet_mem {l : List α} {i : Int} {x : α} (h : jsGet l i = some x) :
    x ∈ l := by
  unfold jsGet at h
  split at h
  · exact absurd h (by simp)
  · exact List.get?_mem h

theorem grid0_shape (gs : Nat) :
    gridShape gs (List.replicate gs (List.replicate gs ([] : JsString))) := by
  constructor
  · exact List.length_replicate gs _
  · intro row hrow
    rw [List.eq_of_mem_replicate hrow]
    exact List.length_replicate gs _

theorem grid0_short (gs : Nat) :
    cellsShort (List.replicate gs (List.replicate gs ([] : JsString))) := by
  intro r c s hs
  unfold jsCell at hs
  cases hrow : jsGet (List.replicate gs (List.replicate gs ([] : JsString))) r
    with
  | none => rw [hrow] at hs; exact absurd hs (by simp)
  | some row =>
      rw [hrow] at hs
      simp only [Option.some_bind] at hs
      have hrow2 : row = List.replicate gs ([] : JsString) :=
        List.eq_of_mem_replicate (jsGet_mem hrow)
      subst hrow2
      have hsnil : s = [] := List.eq_of_mem_replicate (jsGet_mem hs)
      rw [hsnil]
      simp

theorem generatePuzzle_master (shuffled : List JsString) (gs : Nat)
    (rng : Nat → Nat) :
    gridShape gs (generatePuzzle shuffled gs rng).grid ∧
    (∀ pw ∈ (generatePuzzle shuffled gs rng).placedWords,
      placedWordOk gs (generatePuzzle shuffled gs rng).grid pw) ∧
    ((generatePuzzle shuffled gs rng).placedWords.map
        (fun pw => pw.word)).Sublist
      (shuffled.mergeSort fun a b => decide (b.length ≤ a.length)) ∧
    (generatePuzzle shuffled gs rng).placedWords.length ≤ 20 ∧
    (generatePuzzle shuffled gs rng).wordList =
      (generatePuzzle shuffled gs rng).placedWords.map (fun pw => pw.word) ∧
    cellsShort (generatePuzzle shuffled gs rng).grid ∧
    (∀ r c : Nat, r < gs → c < gs →
      cellAt (generatePuzzle shuffled gs rng).grid r c ≠ []) := by
  obtain ⟨hsh1, hpres1, hshort1, newPws, heq, hsub, hok1⟩ :=
    placeWordsLoop_master rng gs
      (shuffled.mergeSort fun a b => decide (b.length ≤ a.length))
      (List.replicate gs (List.replicate gs ([] : JsString))) [] 0
      (grid0_shape gs)
  simp only [List.nil_append] at heq
  simp only [generatePuzzle, generatePuzzleSorted]
  refine ⟨?_, ?_, ?_, ?_, ?_, ?_, ?_⟩
  · exact gridShape_fillCells rng _ _ _ hsh1
  · intro pw hpw
    rw [heq] at hpw
    have hok1b := hok1 pw hpw
    refine placedWordOk_mono ?_ hok1b
    intro r c hne
    exact fillCells_preserves rng _ _ _ r c hne
  · rw [heq]
    exact hsub
  · exact placeWordsLoop_le20 rng gs _ _ _ _ (by simp)
  · trivial
  · exact fillCells_short rng _ _ _ (hshort1 (grid0_short gs))
  · intro r c hr hc
    exact fillCells_filled rng _ _ _ hsh1
      (fun rc hrc => mem_rowMajor.mp hrc) (r, c) (mem_rowMajor.mpr ⟨hr, hc⟩)

theorem placedWordOk_cells {gs : Nat} {grid : Grid} {pw : PlacedWord}
    (hok : placedWordOk gs grid pw) :
    pw.cells.length = pw.word.length ∧
    ∀ i : Nat, i < pw.word.length →
      0 ≤ (pw.cells.getD i default).row ∧
      (pw.cells.getD i default).row < gs ∧
      0 ≤ (pw.cells.getD i default).col ∧
      (pw.cells.getD i default).col < gs ∧
      (pw.cells.getD i default).letter = some [pw.word.getD i 'A'] ∧
      cellAt grid (pw.cells.getD i default).row
          (pw.cells.getD i default).col = [pw.word.getD i 'A'] := by
  obtain ⟨row, col, dr, dc, hdir, hcells, hall⟩ := hok
  have hlen : pw.cells.length = pw.word.length := by rw [hcells]; simp
  refine ⟨hlen, fun i hi => ?_⟩
  have hgd : pw.cells.getD i default =
      ⟨some [pw.word.getD i 'A'], row + (i : Int) * dr,
       col + (i : Int) * dc⟩ := by
    rw [hcells, List.getD_eq_getElem?_getD, List.getElem?_map,
      List.getElem?_range hi]
    simp only [Option.map_some', Option.getD_some]
  rw [hgd]
  obtain ⟨h1, h2, h3, h4, h5⟩ := hall i hi
  exact ⟨h1, h2, h3, h4, rfl, h5⟩

/-- C2: every placed word's cells lie inside the grid, carry exactly the
word's letters in order, and agree with the final grid; consequently two
placed words sharing a cell require the same letter there. -/
theorem generatePuzzle_cells_spec (shuffled : List JsString) (gs : Nat)
    (rng : Nat → Nat) (hgs : 1 ≤ gs) :
    (∀ pw ∈ (generatePuzzle shuffled gs rng).placedWords,
      pw.cells.length = pw.word.length ∧
      ∀ i : Nat, i < pw.word.length →
        0 ≤ (pw.cells.getD i default).row ∧
        (pw.cells.getD i default).row < gs ∧
        0 ≤ (pw.cells.getD i default).col ∧
        (pw.cells.getD i default).col < gs ∧
        (pw.cells.getD i default).letter = some [pw.word.getD i 'A'] ∧
        cellAt (generatePuzzle shuffled gs rng).grid
            (pw.cells.getD i default).row (pw.cells.getD i default).col =
          [pw.word.getD i 'A']) ∧
    ∀ pw1 ∈ (generatePuzzle shuffled gs rng).placedWords,
    ∀ pw2 ∈ (generatePuzzle shuffled gs rng).placedWords,
    ∀ i j : Nat, i < pw1.word.length → j < pw2.word.length →
      (pw1.cells.getD i default).row = (pw2.cells.getD j default).row →
      (pw1.cells.getD i default).col = (pw2.cells.getD j default).col →
      pw1.word.getD i 'A' = pw2.word.getD j 'A' := by
  obtain ⟨-, hok, -, -, -, -, -⟩ := generatePuzzle_master shuffled gs rng
  constructor
  · intro pw hpw
    exact placedWordOk_cells (hok pw hpw)
  · intro pw1 h1 pw2 h2 i j hi hj hr hc
    have e1 := (placedWordOk_cells (hok pw1 h1)).2 i hi
    have e2 := (placedWordOk_cells (hok pw2 h2)).2 j hj
    have hcells : [pw1.word.getD i 'A'] = [pw2.word.getD j 'A'] := by
      rw [← e1.2.2.2.2.2, ← e2.2.2.2.2.2, hr, hc]
    simpa using hcells

/-- C7: a generated puzzle contains at most 20 placed words, for every word
list, grid size and random stream; and with 21 copies of AB — all of which
fit, since identical words may overlap — exactly 20 are placed and the 21st
is never attempted. -/
theorem generatePuzzle_cap20 :
    (∀ (shuffled : List JsString) (gs : Nat) (rng : Nat → Nat),
      (generatePuzzle shuffled gs rng).placedWords.length ≤ 20) ∧
    (generatePuzzle (List.replicate 21 ['A', 'B']) 2
        (fun _ => 0)).placedWords.length = 20 := by
  constructor
  · intro shuffled gs rng
    exact (generatePuzzle_master shuffled gs rng).2.2.2.1
  · rw [show generatePuzzle (List.replicate 21 ['A', 'B']) 2 (fun _ => 0) =
        generatePuzzleSorted (List.replicate 21 ['A', 'B']) 2 (fun _ => 0)
      from by
      unfold generatePuzzle
      rw [List.mergeSort_of_sorted (by decide)]]
    decide

/-- C8: the word list of a generated puzzle is exactly the placed words in
placement order, and the placement order is longest-first: word lengths are
non-increasing along the list. -/
theorem generatePuzzle_wordList_spec (shuffled : List JsString) (gs : Nat)
    (rng : Nat → Nat) :
    (generatePuzzle shuffled gs rng).wordList =
      (generatePuzzle shuffled gs rng).placedWords.map (fun pw => pw.word) ∧
    (generatePuzzle shuffled gs rng).wordList.Pairwise
      (fun a b => b.length ≤ a.length) := by
  obtain ⟨-, -, hsub, -, hwl, -, -⟩ := generatePuzzle_master shuffled gs rng
  refine ⟨hwl, ?_⟩
  rw [hwl]
  have hsorted := @List.sorted_mergeSort JsString
    (fun a b : JsString => decide (b.length ≤ a.length))
    (fun a b c hab hbc => by
      simp only [decide_eq_true_eq] at *
      omega)
    (fun a b => by
      simp only [Bool.or_eq_true, decide_eq_true_eq]
      omega)
    shuffled
  have hpair := hsorted.sublist hsub
  exact hpair.imp fun h => by simpa using h

theorem canPlaceWord_too_long {gs : Nat} {grid : Grid} {word : JsString}
    {row col dr dc : Int} (hsh : gridShape gs grid)
    (hdir : (dr, dc) ∈ DIRECTIONS) (hlen : gs < word.length) :
    canPlaceWord grid word row col dr dc = false := by
  rcases Bool.eq_false_or_eq_true (canPlaceWord grid word row col dr dc)
    with hb | hb
  swap
  · exact hb
  · exfalso
    have h2 := canPlaceWord_iff.mp hb
    have hi0 := h2 0 (by omega)
    have hi := h2 gs hlen
    rw [hsh.1, headD_length hsh] at hi0 hi
    rcases dir_cases hdir with hd | hd | hd | hd | hd | hd | hd | hd <;>
      obtain ⟨hd1, hd2⟩ := hd <;> rw [hd1, hd2] at hi0 hi <;>
      simp only [Int.mul_zero, Int.mul_one, Int.mul_neg_one] at hi0 hi <;>
      omega

theorem placeWordsLoop_no_words {gs : Nat} (rng : Nat → Nat) :
    ∀ (ws : List JsString) (grid : Grid) (placed : List PlacedWord) (k : Nat),
    gridShape gs grid → (∀ w ∈ ws, gs < w.length) →
    (placeWordsLoop rng gs ws grid placed k).2.1 = placed ∧
    (placeWordsLoop rng gs ws grid placed k).1 = grid := by
  intro ws
  induction ws with
  | nil => intro grid placed k _ _; exact ⟨rfl, rfl⟩
  | cons w rest ih =>
      intro grid placed k hsh hlong
      unfold placeWordsLoop
      rcases tryPlaceWord_cases rng gs w 100 grid k with ⟨hg, hn⟩ |
        ⟨row, col, dr, dc, hdir, hcan, -, -⟩
      · simp only [hg, hn]
        by_cases h20 : 20 ≤ placed.length
        · rw [if_pos h20]
          exact ⟨rfl, rfl⟩
        · rw [if_neg h20]
          exact ih grid placed _ hsh
            (fun w2 hw2 => hlong w2 (List.mem_cons_of_mem w hw2))
      · have hfalse := @canPlaceWord_too_long gs grid w row col dr dc hsh hdir
          (hlong w (List.mem_cons_self w rest))
        rw [hcan] at hfalse
        exact absurd hfalse (by simp)

theorem cellAt_singleton {g : Grid} {r c : Int} (hshort : cellsShort g)
    (hne : cellAt g r c ≠ []) : ∃ ch : Char, cellAt g r c = [ch] := by
  cases hj : jsCell g r c with
  | none =>
      exact absurd (by unfold cellAt; rw [hj]; rfl) hne
  | some s =>
      have hlen := hshort r c s hj
      have hval : cellAt g r c = s := by unfold cellAt; rw [hj]; rfl
      rw [hval] at hne ⊢
      cases s with
      | nil => exact absurd rfl hne
      | cons a t =>
          cases t with
          | nil => exact ⟨a, rfl⟩
          | cons b t2 => simp at hlen

/-- C6: generation is total for gridSize at least 1: the output grid is a
fully filled gridSize by gridSize grid of single letters; and when no word
fits — every supplied word longer than gridSize — the puzzle simply carries
zero placed words and an empty word list. -/
theorem generatePuzzle_total_spec (shuffled : List JsString) (gs : Nat)
    (rng : Nat → Nat) (hgs : 1 ≤ gs) :
    gridShape gs (generatePuzzle shuffled gs rng).grid ∧
    (∀ r c : Nat, r < gs → c < gs →
      ∃ ch : Char, cellAt (generatePuzzle shuffled gs rng).grid r c = [ch]) ∧
    ((∀ w ∈ shuffled, gs < w.length) →
      (generatePuzzle shuffled gs rng).placedWords = [] ∧
      (generatePuzzle shuffled gs rng).wordList = []) := by
  obtain ⟨hsh, -, -, -, hwl, hshort, hfill⟩ :=
    generatePuzzle_master shuffled gs rng
  refine ⟨hsh, ?_, ?_⟩
  · intro r c hr hc
    exact cellAt_singleton hshort (hfill r c hr hc)
  · intro hlong
    have hempty : (generatePuzzle shuffled gs rng).placedWords = [] := by
      simp only [generatePuzzle, generatePuzzleSorted]
      exact (placeWordsLoop_no_words rng _ _ _ _ (grid0_shape gs)
        (fun w hw => hlong w (List.mem_mergeSort.mp hw))).1
    refine ⟨hempty, ?_⟩
    rw [hwl, hempty]
    rfl

theorem sign_natCast_pos {m : Nat} (hm : 1 ≤ m) : ((m : Int)).sign = 1 := by
  rcases sign_trichotomy ((m : Int)) with ⟨ha, hb⟩ | ⟨ha, hb⟩ | ⟨ha, hb⟩ <;>
    omega

theorem dir_step_facts {dr dc : Int} (hdir : (dr, dc) ∈ DIRECTIONS) (m : Nat)
    (hm : 1 ≤ m) :
    ((m : Int) * dr).sign = dr ∧ ((m : Int) * dc).sign = dc ∧
    max ((m : Int) * dr).natAbs ((m : Int) * dc).natAbs = m := by
  have hsp := sign_natCast_pos hm
  have hsn : ((-(m : Int))).sign = -1 := by
    rw [Int.sign_neg, hsp]
  rcases dir_cases hdir with hd | hd | hd | hd | hd | hd | hd | hd <;>
    obtain ⟨hd1, hd2⟩ := hd <;> rw [hd1, hd2] <;>
    refine ⟨?_, ?_, ?_⟩ <;>
    simp only [Int.mul_zero, Int.mul_one, Int.mul_neg_one, Int.sign_zero,
      Int.natAbs_zero, Int.natAbs_neg, Int.natAbs_ofNat, hsp, hsn] <;>
    omega

theorem isInLine_dir (row col dr dc : Int) (m : Nat)
    (hdir : (dr, dc) ∈ DIRECTIONS) :
    isInLine row col (row + (m : Int) * dr) (col + (m : Int) * dc) = true := by
  rw [isInLine_iff]
  rcases dir_cases hdir with hd | hd | hd | hd | hd | hd | hd | hd <;>
    obtain ⟨hd1, hd2⟩ := hd <;> rw [hd1, hd2] <;> omega

theorem dir_neg {dr dc : Int} (h : (dr, dc) ∈ DIRECTIONS) :
    (-dr, -dc) ∈ DIRECTIONS := by
  rcases dir_cases h with hd | hd | hd | hd | hd | hd | hd | hd <;>
    obtain ⟨hd1, hd2⟩ := hd <;> rw [hd1, hd2] <;> decide

theorem map_range_reverse (n : Nat) (f : Nat → α) :
    ((List.range n).map f).reverse = (List.range n).map fun i => f (n - 1 - i) := by
  apply List.ext_getElem
  · simp
  · intro i h1 h2
    simp only [List.getElem_reverse, List.getElem_map, List.getElem_range,
      List.length_reverse, List.length_map, List.length_range] at h1 h2 ⊢

theorem flatten_map_getD (w : JsString) :
    ((List.range w.length).map fun i => [w.getD i 'A']).flatten = w := by
  induction w with
  | nil => rfl
  | cons ch t ih =>
      rw [show (ch :: t).length = t.length + 1 from rfl,
        List.range_succ_eq_map]
      simp only [List.map_cons, List.map_map, List.flatten_cons,
        List.getD_cons_zero]
      have hfun : ((fun i => [(ch :: t).getD i 'A']) ∘ Nat.succ) =
          fun i => [t.getD i 'A'] := by
        funext i
        simp
      rw [hfun, ih]
      rfl

theorem short_reverse {s : JsString} (h : s.length ≤ 1) : s.reverse = s := by
  cases s with
  | nil => rfl
  | cons a t =>
      cases t with
      | nil => rfl
      | cons b t2 => simp at h

theorem flatten_reverse_short (l : List JsString)
    (h : ∀ s ∈ l, s.length ≤ 1) :
    l.reverse.flatten = l.flatten.reverse := by
  induction l with
  | nil => rfl
  | cons a t ih =>
      simp only [List.reverse_cons, List.flatten_append, List.flatten_cons,
        List.reverse_append]
      rw [ih fun s hs => h s (List.mem_cons_of_mem a hs)]
      rw [short_reverse (h a (List.mem_cons_self a t))]
      simp

theorem cellsToWord_of_cells {w : JsString} {cells : List GridCell}
    (h : cells.map (fun c => c.letter) =
      (List.range w.length).map fun i => some [w.getD i 'A']) :
    cellsToWord cells = w := by
  unfold cellsToWord
  have h2 : cells.map (fun c => c.letter.getD []) =
      (List.range w.length).map fun i => [w.getD i 'A'] := by
    have h3 : cells.map (fun c => c.letter.getD []) =
        (cells.map fun c => c.letter).map fun o => o.getD [] := by
      rw [List.map_map]
      rfl
    rw [h3, h, List.map_map]
    rfl
  rw [h2, flatten_map_getD]

theorem cellsToWord_reverse {cells : List GridCell}
    (h : ∀ c ∈ cells, (c.letter.getD []).length ≤ 1) :
    cellsToWord cells.reverse = (cellsToWord cells).reverse := by
  unfold cellsToWord
  rw [List.map_reverse]
  refine flatten_reverse_short _ ?_
  intro s hs
  obtain ⟨c, hc, hce⟩ := List.mem_map.mp hs
  rw [← hce]
  exact h c hc

theorem selection_along_direction {gs : Nat} {grid : Grid}
    (hsh : gridShape gs grid) (row col dr dc : Int)
    (hdir : (dr, dc) ∈ DIRECTIONS) (m : Nat)
    (hbnd : ∀ i : Nat, i ≤ m →
      0 ≤ row + (i : Int) * dr ∧ row + (i : Int) * dr < gs ∧
      0 ≤ col + (i : Int) * dc ∧ col + (i : Int) * dc < gs) :
    getSelectionCells grid row col (row + (m : Int) * dr)
        (col + (m : Int) * dc) =
      (List.range (m + 1)).map fun (i : Nat) =>
        ⟨some (cellAt grid (row + (i : Int) * dr) (col + (i : Int) * dc)),
         row + (i : Int) * dr, col + (i : Int) * dc⟩ := by
  rcases Nat.eq_zero_or_pos m with hm | hm
  · subst hm
    obtain ⟨hb1, hb2, hb3, hb4⟩ := hbnd 0 (le_refl 0)
    simp only [Nat.cast_zero, zero_mul, add_zero] at hb1 hb2 hb3 hb4 ⊢
    rw [getSelectionCells_same,
      jsCell_eq_some_cellAt hsh hb1 hb2 hb3 hb4]
    simp [List.range_succ]
  · have hd1 : (row + (m : Int) * dr) - row = (m : Int) * dr := by ring
    have hd2 : (col + (m : Int) * dc) - col = (m : Int) * dc := by ring
    have hline := isInLine_dir row col dr dc m hdir
    obtain ⟨hs1, hs2, hmax⟩ := dir_step_facts hdir m hm
    have h0 : max ((row + (m : Int) * dr) - row).natAbs
        ((col + (m : Int) * dc) - col).natAbs ≠ 0 := by
      rw [hd1, hd2, hmax]
      omega
    rw [getSelectionCells_map grid row col _ _ hline h0, hd1, hd2, hs1, hs2,
      hmax]
    refine List.map_congr_left ?_
    intro i hi
    have hile : i ≤ m := by
      have := List.mem_range.mp hi
      omega
    obtain ⟨hb1, hb2, hb3, hb4⟩ := hbnd i hile
    rw [jsCell_eq_some_cellAt hsh hb1 hb2 hb3 hb4]

/-- C1 amended: each placed word of a generated puzzle is recovered by
`getSelectionCells` between its two endpoint cells (in both endpoint orders),
and `validateSelection` then returns the placed word itself, for the reversed
traversal under the proviso that `remainingWords` does not also contain the
distinct reversal of the word (in which case the code returns that reversal
instead). -/
theorem generatePuzzle_selection_spec (shuffled : List JsString) (gs : Nat)
    (rng : Nat → Nat) (hgs : 1 ≤ gs) (hwords : ∀ w ∈ shuffled, w ≠ []) :
    ∀ pw ∈ (generatePuzzle shuffled gs rng).placedWords,
      getSelectionCells (generatePuzzle shuffled gs rng).grid
          (pw.cells.getD 0 default).row (pw.cells.getD 0 default).col
          (pw.cells.getD (pw.word.length - 1) default).row
          (pw.cells.getD (pw.word.length - 1) default).col = pw.cells ∧
      getSelectionCells (generatePuzzle shuffled gs rng).grid
          (pw.cells.getD (pw.word.length - 1) default).row
          (pw.cells.getD (pw.word.length - 1) default).col
          (pw.cells.getD 0 default).row (pw.cells.getD 0 default).col =
        pw.cells.reverse ∧
      (∀ remaining : List JsString, pw.word ∈ remaining →
        validateSelection pw.cells remaining = some pw.word) ∧
      (∀ remaining : List JsString, pw.word ∈ remaining →
        (pw.word.reverse = pw.word ∨ pw.word.reverse ∉ remaining) →
        validateSelection pw.cells.reverse remaining = some pw.word) := by
  obtain ⟨hsh, hok, hsub, -, -, hshort, -⟩ :=
    generatePuzzle_master shuffled gs rng
  intro pw hpw
  obtain ⟨row, col, dr, dc, hdir, hcells, hall⟩ := hok pw hpw
  have hmem : pw.word ∈ shuffled := by
    have h1 : pw.word ∈ (generatePuzzle shuffled gs rng).placedWords.map
        (fun pw2 => pw2.word) := List.mem_map_of_mem _ hpw
    exact List.mem_mergeSort.mp (hsub.subset h1)
  have hwne : pw.word ≠ [] := hwords pw.word hmem
  have hn1 : 1 ≤ pw.word.length := List.length_pos.mpr hwne
  set m := pw.word.length - 1 with hm
  have hmn : m + 1 = pw.word.length := by omega
  have hgetD : ∀ i : Nat, i < pw.word.length → pw.cells.getD i default =
      ⟨some [pw.word.getD i 'A'], row + (i : Int) * dr,
       col + (i : Int) * dc⟩ := by
    intro i hi
    rw [hcells, List.getD_eq_getElem?_getD, List.getElem?_map,
      List.getElem?_range hi]
    simp only [Option.map_some', Option.getD_some]
  have hfirst : pw.cells.getD 0 default =
      ⟨some [pw.word.getD 0 'A'], row, col⟩ := by
    rw [hgetD 0 (by omega)]
    simp
  have hlast := hgetD m (by omega)
  have hbnd : ∀ i : Nat, i ≤ m →
      0 ≤ row + (i : Int) * dr ∧ row + (i : Int) * dr < gs ∧
      0 ≤ col + (i : Int) * dc ∧ col + (i : Int) * dc < gs := by
    intro i hi
    obtain ⟨h1, h2, h3, h4, -⟩ := hall i (by omega)
    exact ⟨h1, h2, h3, h4⟩
  have hselw : getSelectionCells (generatePuzzle shuffled gs rng).grid row col
      (row + (m : Int) * dr) (col + (m : Int) * dc) = pw.cells := by
    rw [selection_along_direction hsh row col dr dc hdir m hbnd, hcells,
      ← hmn]
    refine List.map_congr_left ?_
    intro i hi
    obtain ⟨-, -, -, -, h5⟩ := hall i (by
      have := List.mem_range.mp hi
      omega)
    rw [h5]
  have hrow2 : ∀ i : Nat, i ≤ m →
      (row + (m : Int) * dr) + (i : Int) * (-dr) =
        row + ((m - i : Nat) : Int) * dr := by
    intro i hi
    rw [Nat.cast_sub hi]
    ring
  have hcol2 : ∀ i : Nat, i ≤ m →
      (col + (m : Int) * dc) + (i : Int) * (-dc) =
        col + ((m - i : Nat) : Int) * dc := by
    intro i hi
    rw [Nat.cast_sub hi]
    ring
  have hbnd2 : ∀ i : Nat, i ≤ m →
      0 ≤ (row + (m : Int) * dr) + (i : Int) * (-dr) ∧
      (row + (m : Int) * dr) + (i : Int) * (-dr) < gs ∧
      0 ≤ (col + (m : Int) * dc) + (i : Int) * (-dc) ∧
      (col + (m : Int) * dc) + (i : Int) * (-dc) < gs := by
    intro i hi
    rw [hrow2 i hi, hcol2 i hi]
    exact hbnd (m - i) (by omega)
  have hsel2 := selection_along_direction hsh (row + (m : Int) * dr)
    (col + (m : Int) * dc) (-dr) (-dc) (dir_neg hdir) m hbnd2
  rw [show (row + (m : Int) * dr) + (m : Int) * (-dr) = row by ring,
    show (col + (m : Int) * dc) + (m : Int) * (-dc) = col by ring] at hsel2
  have hselw2 : getSelectionCells (generatePuzzle shuffled gs rng).grid
      (row + (m : Int) * dr) (col + (m : Int) * dc) row col =
      pw.cells.reverse := by
    rw [hsel2, hcells, ← hmn, map_range_reverse]
    refine List.map_congr_left ?_
    intro i hi
    have him : i ≤ m := by
      have := List.mem_range.mp hi
      omega
    have hidx : m + 1 - 1 - i = m - i := by omega
    rw [hidx, hrow2 i him, hcol2 i him]
    obtain ⟨-, -, -, -, h5⟩ := hall (m - i) (by omega)
    rw [h5]
  have hwword : cellsToWord pw.cells = pw.word :=
    cellsToWord_of_cells (by rw [hcells, List.map_map]; rfl)
  have hshortcells : ∀ c ∈ pw.cells, (c.letter.getD []).length ≤ 1 := by
    intro c hc
    rw [hcells] at hc
    obtain ⟨i, hi, hce⟩ := List.mem_map.mp hc
    rw [← hce]
    simp
  have hwrev : cellsToWord pw.cells.reverse = pw.word.reverse := by
    rw [cellsToWord_reverse hshortcells, hwword]
  refine ⟨?_, ?_, ?_, ?_⟩
  · rw [hfirst, hlast]
    exact hselw
  · rw [hfirst, hlast]
    exact hselw2
  · intro remaining hmem2
    rw [← hwword] at hmem2 ⊢
    exact validateSelection_of_mem hmem2
  · intro remaining hmem2 hside
    rcases hside with hpal | hnot
    · have hpw2 : cellsToWord pw.cells.reverse = pw.word := by
        rw [hwrev, hpal]
      rw [← hpw2] at hmem2 ⊢
      exact validateSelection_of_mem hmem2
    · have h1 : cellsToWord pw.cells.reverse ∉ remaining := by
        rw [hwrev]
        exact hnot
      have h2 : (cellsToWord pw.cells.reverse).reverse ∈ remaining := by
        rw [hwrev, List.reverse_reverse]
        exact hmem2
      rw [validateSelection_of_reverse_mem h1 h2, hwrev,
        List.reverse_reverse]

/-- C1 counterexample: generate a puzzle whose only placed word is DOG; with
`remainingWords = [DOG, GOD]` — a list containing the placed word — the
selection obtained by dragging from the word's last cell to its first cell
validates to GOD, not to the placed word DOG, refuting the claim that the
reversed traversal always returns the original word. -/
theorem generatePuzzle_selection_counterexample :
    (let P := generatePuzzle [['D', 'O', 'G']] 3 (fun _ => 0)
     let pw := P.placedWords.getD 0 default
     P.placedWords.map (fun q => q.word) = [['D', 'O', 'G']] ∧
     pw.word ∈ [['D', 'O', 'G'], ['G', 'O', 'D']] ∧
     validateSelection
       (getSelectionCells P.grid
         (pw.cells.getD (pw.word.length - 1) default).row
         (pw.cells.getD (pw.word.length - 1) default).col
         (pw.cells.getD 0 default).row (pw.cells.getD 0 default).col)
       [['D', 'O', 'G'], ['G', 'O', 'D']] = some ['G', 'O', 'D'] ∧
     some (['G', 'O', 'D'] : JsString) ≠ some pw.word) := by
  rw [show generatePuzzle [['D', 'O', 'G']] 3 (fun _ => 0) =
      generatePuzzleSorted [['D', 'O', 'G']] 3 (fun _ => 0) from by
    unfold generatePuzzle
    rw [List.mergeSort_singleton]]
  decide

/-- Witness for the amended C1 on a concretely generated puzzle. -/
theorem generatePuzzle_selection_spec_witness :
    validateSelection
      ((generatePuzzle [['D', 'O', 'G']] 3 (fun _ => 0)).placedWords.getD 0
        default).cells [['D', 'O', 'G']] =
      some ((generatePuzzle [['D', 'O', 'G']] 3 (fun _ => 0)).placedWords.getD
        0 default).word := by
  have hgen : generatePuzzle [['D', 'O', 'G']] 3 (fun _ => 0) =
      generatePuzzleSorted [['D', 'O', 'G']] 3 (fun _ => 0) := by
    unfold generatePuzzle
    rw [List.mergeSort_singleton]
  have h := generatePuzzle_selection_spec [['D', 'O', 'G']] 3 (fun _ => 0)
    (by decide) (by decide)
    ((generatePuzzle [['D', 'O', 'G']] 3 (fun _ => 0)).placedWords.getD 0
      default)
    (by rw [hgen]; decide)
  exact h.2.2.1 [['D', 'O', 'G']] (by rw [hgen]; decide)

/-- Witness for C2 on a concretely generated puzzle. -/
theorem generatePuzzle_cells_spec_witness :
    ((generatePuzzle [['D', 'O', 'G']] 3 (fun _ => 0)).placedWords.getD 0
        default).cells.length =
      ((generatePuzzle [['D', 'O', 'G']] 3 (fun _ => 0)).placedWords.getD 0
        default).word.length := by
  have hgen : generatePuzzle [['D', 'O', 'G']] 3 (fun _ => 0) =
      generatePuzzleSorted [['D', 'O', 'G']] 3 (fun _ => 0) := by
    unfold generatePuzzle
    rw [List.mergeSort_singleton]
  have h := (generatePuzzle_cells_spec [['D', 'O', 'G']] 3 (fun _ => 0)
    (by decide)).1
    ((generatePuzzle [['D', 'O', 'G']] 3 (fun _ => 0)).placedWords.getD 0
      default)
    (by rw [hgen]; decide)
  exact h.1

/-- Witness for C6: with the single word AB on a 1-by-1 grid nothing fits and
the puzzle carries zero placed words. -/
theorem generatePuzzle_total_spec_witness :
    (generatePuzzle [['A', 'B']] 1 (fun _ => 0)).placedWords = [] := by
  have h := generatePuzzle_total_spec [['A', 'B']] 1 (fun _ => 0) (by decide)
  exact (h.2.2 (by decide)).1
